import Mathlib

/-!
Verification of the GCIF RGBA codec core against its design specification.

The development shallowly embeds the relevant routines of the encoder
(`MonoWriter.cpp`, `ImageRGBAWriter.hpp`, `LZMatchFinder.hpp`) and the decoder
(`ImageRGBAReader.hpp`).  Pure C++ loops become Lean functions over explicit
state; the bit reader/writer and the static-Huffman layer are external
collaborators of the core (out of scope per the spec), so symbol streams are
modelled as lists of natural numbers where each entropy-coder read pops one
value.  Machine integers are `Nat` with explicit `% 256` / `% 2^w` where
overflow matters.  Components of the repository that are referenced but whose
bodies are not part of the source tree (as noted in each doc comment) are
modelled from the spec's words.
-/

namespace GCIF

/-! ## Shared scalar helpers -/

/-- Modelled from the spec: the RESIDUAL_SCORE lookup table (declared in headers
outside the source tree): a saturating magnitude→small-int mapping,
"lookup table 0..255 → 0..15".  The magnitude of a byte residual folds the
two's-complement wrap and saturates at 15. -/
def RESIDUAL_SCORE (v : Nat) : Nat := min (min (v % 256) (256 - v % 256)) 15

/-- Modelled from the spec: the CHAOS_MAPS row for `k` chaos levels (tables live
outside the source tree).  It maps a residual-score sum to one of the `k`
context bins; the spec fixes only that it is a fixed total map onto `k` bins. -/
def CHAOS_MAP (k s : Nat) : Nat := min s (k - 1)

/-! ## MonoWriter: tile-size, chaos-level and recursion decisions -/

namespace MonoWriter

/-- MAX_PASSES constant (ImageRGBAWriter.hpp line 76, shared by MonoWriter). -/
def MAX_PASSES : Nat := 4

/-- MASK_TILE sentinel value (ImageRGBAWriter.hpp line 79). -/
def MASK_TILE : Nat := 255

/-- Modelled from the spec: the MAX_CHAOS_LEVELS constant of the missing
MonoWriter.hpp header.  The spec fixes the chaos model to "one of K∈[1..8]
context bins per channel", so the maximum number of chaos levels is 8.
(The decoder-side ImageRGBAReader.hpp declares its own, different constant.) -/
def MAX_CHAOS_LEVELS : Nat := 8

/-- Chaos-level values visited by the loop head of MonoWriter::designChaos
(line 748): `for (int chaos_levels = 1; chaos_levels < MAX_CHAOS_LEVELS; ++chaos_levels)`. -/
def triedChaosLevels : List Nat := List.range' 1 (MAX_CHAOS_LEVELS - 1)

/-- Loop body of the chaos-level search in MonoWriter::designChaos
(lines 796-807): keep `(best_entropy, best_chaos_levels)` and replace it when
`best_entropy > entropy`.  `ent k` is the summed `entropyOverall` of the `k`
entropy estimators for this plane (EntropyEstimator is outside the source
tree, so the per-level entropy is abstracted as a function argument). -/
def chaosSelectStep (ent : Nat → Nat) (best : Nat × Nat) (k : Nat) : Nat × Nat :=
  let entropy := ent k
  if best.1 > entropy then (entropy, k) else best

/-- Embedding of the chaos-level selection of MonoWriter::designChaos
(lines 744-811): starting from `best_entropy = 0x7fffffff`,
`best_chaos_levels = 1`, fold the loop body over the tried levels.
Returns `(best_entropy, best_chaos_levels)`. -/
def designChaosSelect (ent : Nat → Nat) : Nat × Nat :=
  triedChaosLevels.foldl (chaosSelectStep ent) (0x7fffffff, 1)

/-- State tracked by the tile-size-selection loop of MonoWriter::process. -/
structure ProcessState where
  best_entropy : Nat
  best_bits : Nat
  tile_bits : Nat
  chaos_entropy : Nat
deriving DecidableEq

/-- Embedding of the tile-size loop of MonoWriter::process (lines 814-856).
For each `bits` in `[min_bits, max_bits]` the source re-initializes the tile
geometry from `bits` and reruns the design pipeline (maskTiles .. designChaos);
the pipeline's net effect on this decision is the chaos entropy it computes,
abstracted as `entropyAt bits`.  Faithful to the source, the loop body never
assigns `best_entropy`/`best_bits` (they keep their initial values
`0x7fffffff` and `max_bits`), so the state left behind is that of the last
iteration. -/
def process (min_bits max_bits : Nat) (entropyAt : Nat → Nat) : ProcessState :=
  (List.range' min_bits (max_bits + 1 - min_bits)).foldl
    (fun st bits => { st with tile_bits := bits, chaos_entropy := entropyAt bits })
    ⟨0x7fffffff, max_bits, 0, 0⟩

/-- Embedding of MonoWriter::recurseCompress (lines 705-734).  The child writer
is built only when `tiles_count` reaches the recursion threshold (a constant of
the missing MonoWriter.hpp header, kept as a parameter); `recurse_entropy` is
the entropy reported by the child's process() call and `row_filter_entropy`
the entropy of the row-filter scheme.  Returns true iff `_filter_encoder`
(the child) is retained after the call: the source deletes the child exactly
when `recurse_entropy > _row_filter_entropy`. -/
def recurseCompress (RECURSIVE_THRESH tiles_count row_filter_entropy recurse_entropy : Nat) :
    Bool :=
  if tiles_count < RECURSIVE_THRESH then false
  else if recurse_entropy > row_filter_entropy then false
  else true

end MonoWriter

/-! ## ImageRGBAReader: tile filter reads -/

/-- Per-tile filter selection of the decoder (ImageRGBAReader.hpp lines 92-99).
The two fields hold the decoded CF and SF table indices once the tile has been
seen; `ready()` of the source tests whether `cf` was assigned. -/
structure FilterSelection where
  cf : Option Nat
  sf : Option Nat
deriving DecidableEq

namespace ImageRGBAReader

/-- Embedding of ImageRGBAReader::readFilter (ImageRGBAReader.hpp lines
119-129).  The bit reader is a list of values and each sub-engine read
(MonoReader::read, body outside the source tree) pops the next value.  If the
tile's filter is not ready, the source assigns `filter->cf` from the first
read (`_cf_decoder`) and `filter->sf` from the second read (`_sf_decoder`). -/
def readFilter (filter : FilterSelection) (reader : List Nat) :
    FilterSelection × List Nat :=
  if filter.cf.isSome then (filter, reader)
  else
    let cfv := reader.headD 0
    let r1 := reader.tail
    let sfv := r1.headD 0
    let r2 := r1.tail
    (⟨some cfv, some sfv⟩, r2)

/-- Ordering asserted by the claim, written from the spec's words for
comparison with `readFilter`: the SF-id is consumed from the stream first,
then the CF-id. -/
def readFilterSpecOrder (filter : FilterSelection) (reader : List Nat) :
    FilterSelection × List Nat :=
  if filter.cf.isSome then (filter, reader)
  else
    let sfv := reader.headD 0
    let r1 := reader.tail
    let cfv := r1.headD 0
    let r2 := r1.tail
    (⟨some cfv, some sfv⟩, r2)

end ImageRGBAReader

/-! ## MonoWriter: the chaos-bin pass and the designTiles loop -/

namespace MonoWriter

/-- One element of the chaos pass shared by MonoWriter::designChaos (lines
767-793) and MonoWriter::initializeEncoders (lines 873-900).  `work` is the
`_chaos` workspace array of size 1 + size_x with `last = _chaos + 1`, so
`last[-1]` is `work[0]`, `last[0]` is `work[1]` and `last[x]` is `work[1+x]`.
`f` is the tile filter at (x,y), `res` the residual symbol at (x,y).  Returns
the updated workspace and the chaos bin used for the element (`none` when the
element is masked or sympal-coded, where the source emits nothing). -/
def designChaosElem (K nfc : Nat) (mask : Bool) (f res x : Nat)
    (work : List Nat) : List Nat × Option Nat :=
  if f = MASK_TILE ∨ mask then (work.set (1 + x) 0, none)
  else if nfc ≤ f then (work.set (1 + x) 0, none)
  else
    let chaos := CHAOS_MAP K (RESIDUAL_SCORE (work.getD 0 0) +
      RESIDUAL_SCORE (work.getD 1 0))
    (work.set (1 + x) res, some chaos)

/-- One row of the chaos pass: the source sets `last[-1] = 0` at the start of
each row and walks the columns, the residual pointer advancing every column. -/
def designChaosRow (K nfc size_x : Nat) (mask : Nat → Nat → Bool)
    (getTile : Nat → Nat → Nat) (residuals : List Nat) (y : Nat)
    (work : List Nat) : List Nat × List (Option Nat) :=
  (List.range size_x).foldl
    (fun acc x =>
      let st := designChaosElem K nfc (mask x y) (getTile x y)
        (residuals.getD (y * size_x + x) 0) x acc.1
      (st.1, acc.2 ++ [st.2]))
    (work.set 0 0, [])

/-- Chaos bins used for each element, in scan order, by the chaos pass of
MonoWriter::designChaos with K chaos levels; the workspace is cleared
(CAT_CLR) before the first row. -/
def designChaosBins (K nfc size_x size_y : Nat) (mask : Nat → Nat → Bool)
    (getTile : Nat → Nat → Nat) (residuals : List Nat) : List (Option Nat) :=
  ((List.range size_y).foldl
    (fun acc y =>
      let st := designChaosRow K nfc size_x mask getTile residuals y acc.1
      (st.1, acc.2 ++ st.2))
    (List.replicate (1 + size_x) 0, [])).2

/-- Chaos bins as the claim states them, written from the spec's words for
comparison with designChaosBins: per channel a window `last[0..W]` holds the
previous row's residuals and a left scalar holds the residual just produced at
(x−1,y); the bin for (x,y) is CHAOS_MAP[K−1] applied to score(left) +
score(last[x]); after the element, last[x] and the left scalar take the new
residual (zero for masked or sympal elements), and the left scalar resets to
zero at each row start. -/
def specChaosBins (K nfc size_x size_y : Nat) (mask : Nat → Nat → Bool)
    (getTile : Nat → Nat → Nat) (residuals : List Nat) : List (Option Nat) :=
  ((List.range size_y).foldl
    (fun acc y =>
      ((List.range size_x).foldl
        (fun st x =>
          let lastRow := st.1
          let left := st.2.1
          let bins := st.2.2
          if getTile x y = MASK_TILE ∨ mask x y then
            (lastRow.set x 0, 0, bins ++ [none])
          else if nfc ≤ getTile x y then
            (lastRow.set x 0, 0, bins ++ [none])
          else
            let res := residuals.getD (y * size_x + x) 0
            let chaos := CHAOS_MAP K (RESIDUAL_SCORE left +
              RESIDUAL_SCORE (lastRow.getD x 0))
            (lastRow.set x res, res, bins ++ [some chaos]))
        (acc.1, 0, acc.2))
      |> fun st => (st.1, st.2.2))
    (List.replicate size_x 0, [])).2

/-- State of the MonoWriter::designTiles while loop (lines 400-547): the pass
counter, the signed revisit budget, the tile plane, and the running tile
pointer `p` (which the source initializes once, before the loop, and never
resets between passes). -/
structure DesignTilesState where
  passes : Nat
  revisitCount : Int
  tiles : List Nat
  p : Nat
deriving DecidableEq

/-- One tile iteration of the designTiles loop body (lines 409-543).  Masked
and sympal tiles (`*p >= _normal_filter_count`) are skipped.  On the second or
later pass the revisit budget is decremented first and the early `return` —
modelled as `none` — is taken when it underflows.  Otherwise the tile's filter
is re-selected; the entropy-scored best-filter computation (EntropyEstimator,
outside the source tree) is abstracted as `selectBest`.  Reads past the end of
the tile plane (which the source performs once `p` outruns the buffer) are
modelled as reading 0. -/
def designTilesTile (nfc : Nat) (selectBest : Nat → Nat)
    (s : DesignTilesState) : Option DesignTilesState :=
  let t := s.tiles.getD s.p 0
  if nfc ≤ t then some { s with p := s.p + 1 }
  else if 0 < s.passes then
    let rc := s.revisitCount - 1
    if rc < 0 then none
    else some { s with revisitCount := rc,
                       tiles := s.tiles.set s.p (selectBest s.p),
                       p := s.p + 1 }
  else some { s with tiles := s.tiles.set s.p (selectBest s.p), p := s.p + 1 }

/-- One full pass of designTiles over the tile grid (the doubly nested for
loop over tiles_count tiles). -/
def designTilesPass (tiles_count nfc : Nat) (selectBest : Nat → Nat)
    (s : DesignTilesState) : Option DesignTilesState :=
  (List.range tiles_count).foldlM (fun st _ => designTilesTile nfc selectBest st) s

/-- The `while (passes < MAX_PASSES)` loop of MonoWriter::designTiles, run for
at most `fuel` iterations of the while loop.  `some s` means designTiles
returned within the budget (either through the early revisit return or through
the loop guard going false); `none` means the fuel elapsed with the loop still
running.  Faithful to the source, the loop body never modifies `passes`. -/
def designTilesLoop (tiles_count nfc : Nat) (selectBest : Nat → Nat) :
    Nat → DesignTilesState → Option DesignTilesState
  | 0, _ => none
  | fuel + 1, s =>
    if s.passes < MAX_PASSES then
      match designTilesPass tiles_count nfc selectBest s with
      | none => some s
      | some s2 => designTilesLoop tiles_count nfc selectBest fuel s2
    else some s

/-- Entry point of MonoWriter::designTiles: `passes` starts at 0, the revisit
budget at the `mono_revisitCount` knob, and `p` at the first tile. -/
def designTiles (tiles_count nfc : Nat) (selectBest : Nat → Nat)
    (revisit : Int) (tiles : List Nat) (fuel : Nat) :
    Option DesignTilesState :=
  designTilesLoop tiles_count nfc selectBest fuel ⟨0, revisit, tiles, 0⟩

end MonoWriter

/-! ## Decoder pixel engine -/

/-- RGBA pixel; channel values are bytes stored as naturals. -/
structure RGBAPixel where
  r : Nat
  g : Nat
  b : Nat
  a : Nat
deriving DecidableEq

/-- Pixel validity: every channel is a byte. -/
def RGBAPixel.valid (p : RGBAPixel) : Prop :=
  p.r < 256 ∧ p.g < 256 ∧ p.b < 256 ∧ p.a < 256

instance (p : RGBAPixel) : Decidable p.valid := by
  unfold RGBAPixel.valid
  exact inferInstance

/-- The all-zero pixel. -/
def zeroPix : RGBAPixel := ⟨0, 0, 0, 0⟩

/-- Read a pixel from a plane, zero outside. -/
def getPix (l : List RGBAPixel) (i : Nat) : RGBAPixel := l.getD i zeroPix

/-- Modelled from the spec: the decoder-side RGBChaos state (declared in
headers outside the source tree).  Per channel it holds the previous row's
residuals `last[0..W]` plus the residual just produced to the left; the bin
for column x is CHAOS_MAP applied to score(left) + score(last[x]), and
storing a residual updates both the left scalar and last[x]. -/
structure RGBChaos where
  K : Nat
  leftY : Nat
  leftU : Nat
  leftV : Nat
  rowY : List Nat
  rowU : List Nat
  rowV : List Nat
deriving DecidableEq

/-- Chaos bins (cy, cu, cv) for column x (RGBChaos::get of the source). -/
def RGBChaos.get (c : RGBChaos) (x : Nat) : Nat × Nat × Nat :=
  (CHAOS_MAP c.K (RESIDUAL_SCORE c.leftY + RESIDUAL_SCORE (c.rowY.getD x 0)),
   CHAOS_MAP c.K (RESIDUAL_SCORE c.leftU + RESIDUAL_SCORE (c.rowU.getD x 0)),
   CHAOS_MAP c.K (RESIDUAL_SCORE c.leftV + RESIDUAL_SCORE (c.rowV.getD x 0)))

/-- Record the YUV residuals decoded at column x (RGBChaos::store). -/
def RGBChaos.store (c : RGBChaos) (x : Nat) (yuv : Nat × Nat × Nat) : RGBChaos :=
  { c with leftY := yuv.1, leftU := yuv.2.1, leftV := yuv.2.2,
           rowY := c.rowY.set x yuv.1,
           rowU := c.rowU.set x yuv.2.1,
           rowV := c.rowV.set x yuv.2.2 }

/-- Modelled from the spec: one entry of the YUV2RGB_FILTERS table (Filters.hpp
is outside the source tree): an invertible integer transform of the lossless
family, here Y = G, U = R − G, V = B − G, so RGB is recovered as
(U + Y, Y, V + Y) mod 256. -/
def yuv2rgb (yuv : Nat × Nat × Nat) : Nat × Nat × Nat :=
  ((yuv.2.1 + yuv.1) % 256, yuv.1 % 256, (yuv.2.2 + yuv.1) % 256)

/-- Decoder state touched by one pixel read: the symbol stream (each entropy
or sub-engine decode pops one value; the bit/Huffman layer is an external
collaborator per the spec), the chaos state, the per-tile-column filter
selections, and the output pixel plane. -/
structure RGBAReaderState where
  stream : List Nat
  chaos : RGBChaos
  filters : List FilterSelection
  out : List RGBAPixel
deriving DecidableEq

namespace ImageRGBAReader

/-- Embedding of ImageRGBAReader::readSafe (ImageRGBAReader.hpp lines
131-165).  `sfSafe` is the safe variant of the tile's spatial filter (the
filter catalog lives in Filters.hpp, outside the source tree), applied to the
decoded plane at (x, y); `aRead` is the alpha sub-engine decode, applied to x
and the value it pops from the stream.  The source decodes the Y symbol, and
on an LZ escape code (pixel_code >= 256) the branch body is an unfinished
TODO: nothing further happens.  Otherwise it reads U and V, fetches the tile
filter just-in-time, reverses the color filter, adds the spatial prediction
mod 256, reads the inverted alpha byte, and stores the YUV residuals in the
chaos state. -/
def readSafe (sfSafe : List RGBAPixel → Nat → Nat → Nat → RGBAPixel)
    (aRead : Nat → Nat → Nat) (tile_bits_x xsize x y : Nat)
    (st : RGBAReaderState) : RGBAReaderState :=
  let _cyuv := st.chaos.get x
  let pixel_code := st.stream.headD 0
  let s1 := st.stream.tail
  if 256 ≤ pixel_code then
    { st with stream := s1 }
  else
    let Y := pixel_code % 256
    let U := s1.headD 0 % 256
    let s2 := s1.tail
    let V := s2.headD 0 % 256
    let s3 := s2.tail
    let tx := x >>> tile_bits_x
    let fr := readFilter (st.filters.getD tx ⟨none, none⟩) s3
    let rgb := yuv2rgb (Y, U, V)
    let pred := sfSafe st.out x y xsize
    let s4 := fr.2
    let av := s4.headD 0
    let s5 := s4.tail
    { stream := s5,
      chaos := st.chaos.store x (Y, U, V),
      filters := st.filters.set tx fr.1,
      out := st.out.set (y * xsize + x)
        ⟨(rgb.1 + pred.r) % 256, (rgb.2.1 + pred.g) % 256,
         (rgb.2.2 + pred.b) % 256, 255 - aRead x av % 256⟩ }

/-- Embedding of ImageRGBAReader::readUnsafe (ImageRGBAReader.hpp lines
167-202); per the source comment it is exactly readSafe except that it calls
the unsafe spatial-filter variant and the unsafe alpha read. -/
def readUnsafe (sfUnsafe : List RGBAPixel → Nat → Nat → Nat → RGBAPixel)
    (aReadUnsafe : Nat → Nat → Nat) (tile_bits_x xsize x y : Nat)
    (st : RGBAReaderState) : RGBAReaderState :=
  let _cyuv := st.chaos.get x
  let pixel_code := st.stream.headD 0
  let s1 := st.stream.tail
  if 256 ≤ pixel_code then
    { st with stream := s1 }
  else
    let Y := pixel_code % 256
    let U := s1.headD 0 % 256
    let s2 := s1.tail
    let V := s2.headD 0 % 256
    let s3 := s2.tail
    let tx := x >>> tile_bits_x
    let fr := readFilter (st.filters.getD tx ⟨none, none⟩) s3
    let rgb := yuv2rgb (Y, U, V)
    let pred := sfUnsafe st.out x y xsize
    let s4 := fr.2
    let av := s4.headD 0
    let s5 := s4.tail
    { stream := s5,
      chaos := st.chaos.store x (Y, U, V),
      filters := st.filters.set tx fr.1,
      out := st.out.set (y * xsize + x)
        ⟨(rgb.1 + pred.r) % 256, (rgb.2.1 + pred.g) % 256,
         (rgb.2.2 + pred.b) % 256, 255 - aReadUnsafe x av % 256⟩ }

/-- Modelled from the spec: the LZ-escape handling the claim describes
(ImageRGBAReader::readLZMatch has no body under the source tree and the
escape branch of readSafe is an unfinished TODO): on a Y symbol ≥ 256, read a
length and a distance from the stream, copy L pixels forward from
(current − D), and advance the per-channel chaos state as if zero residuals
were emitted for those positions. -/
def readLZMatchSpec (xsize x y : Nat) (st : RGBAReaderState) : RGBAReaderState :=
  let pixel_code := st.stream.headD 0
  let s1 := st.stream.tail
  if 256 ≤ pixel_code then
    let len := s1.headD 0
    let s2 := s1.tail
    let dist := s2.headD 0
    let s3 := s2.tail
    let cur := y * xsize + x
    let out := (List.range len).foldl
      (fun o k => o.set (cur + k) (getPix o (cur + k - dist))) st.out
    let chaos := (List.range len).foldl
      (fun c k => RGBChaos.store c (x + k) (0, 0, 0)) st.chaos
    { stream := s3, chaos := chaos, filters := st.filters, out := out }
  else st

end ImageRGBAReader

/-- Concrete decoder state used to exercise the pixel reads: a stream, a
small chaos state for a 4-pixel row, no tile filters seen yet, and a 4-pixel
output plane. -/
def sampleReaderState : RGBAReaderState :=
  { stream := [300, 1, 1],
    chaos := ⟨8, 0, 0, 0, [0, 0, 0, 0], [0, 0, 0, 0], [0, 0, 0, 0]⟩,
    filters := [⟨none, none⟩],
    out := [⟨10, 11, 12, 13⟩, ⟨20, 21, 22, 23⟩, ⟨30, 31, 32, 33⟩, ⟨40, 41, 42, 43⟩] }

/-! ## LZ match finder -/

namespace LZMatchFinder

/-- Maximum match length in pixels (LZMatchFinder.hpp line 47). -/
def MAX_MATCH : Nat := 4096

/-- Sliding window in pixels (LZMatchFinder.hpp line 48). -/
def WIN_SIZE : Nat := 1024 * 1024

/-- Minimum RGBA match length in pixels (LZMatchFinder.hpp line 67). -/
def RGBA_MIN_MATCH : Nat := 2

/-- Distance bit-range prefix cost in bits (LZMatchFinder.hpp line 68). -/
def RGBA_DIST_PREFIX_COST : Nat := 7

/-- Length bit-range prefix cost in bits (LZMatchFinder.hpp line 69). -/
def RGBA_LEN_PREFIX_COST : Nat := 5

/-- Saved bits per copied RGBA pixel (LZMatchFinder.hpp line 70). -/
def RGBA_SAVED_PIXEL_BITS : Nat := 9

/-- An emitted match (LZMatchFinder.hpp lines 105-115): source offset in
pixels, backwards distance, length. -/
structure LZMatch where
  offset : Nat
  distance : Nat
  length : Nat
deriving DecidableEq

/-- Ceiling of the base-2 logarithm, with structural fuel so that concrete
evaluation reduces; clog2 1 = 0, clog2 2 = 1, clog2 3 = clog2 4 = 2. -/
def clog2Aux : Nat → Nat → Nat
  | 0, _ => 0
  | fuel + 1, n => if n ≤ 1 then 0 else clog2Aux fuel ((n + 1) / 2) + 1

/-- Ceiling log2 of n. -/
def clog2 (n : Nat) : Nat := clog2Aux n n

/-- Modelled from the spec: forward match extension of LZMatchFinder::scanRGBA
(its body is not under src/): "for each candidate extend match forward by 1
pixel at a time up to MAX_MATCH=4096, bail if match would cross masked
pixels".  `j` is the candidate (copied-from) offset, `i` the current offset,
`k` the pixels matched so far; pixels are packed 32-bit RGBA values. -/
def matchLenAux (rgba : List Nat) (mask : Nat → Bool) (j i : Nat) :
    Nat → Nat → Nat
  | 0, k => k
  | fuel + 1, k =>
    if k < MAX_MATCH ∧ i + k < rgba.length ∧ mask (i + k) = false ∧
        mask (j + k) = false ∧ rgba.getD (j + k) 0 = rgba.getD (i + k) 0 then
      matchLenAux rgba mask j i fuel (k + 1)
    else k

/-- Match length between candidate offset j and current offset i. -/
def matchLen (rgba : List Nat) (mask : Nat → Bool) (j i : Nat) : Nat :=
  matchLenAux rgba mask j i MAX_MATCH 0

/-- Modelled from the spec: the candidate search at offset i.  The hash-chain
walk of candidates sharing the first two pixels is abstracted as a walk over
every previous offset within the 2^20-pixel sliding window, nearest first; a
candidate replaces the running best `(distance, length)` only when strictly
longer, so the result is the longest match and, among equal lengths, the
nearest. -/
def candStep (rgba : List Nat) (mask : Nat → Bool) (i : Nat) (best : Nat × Nat)
    (d : Nat) : Nat × Nat :=
  if best.2 < matchLen rgba mask (i - d) i then (d, matchLen rgba mask (i - d) i)
  else best

/-- Walk the window candidates at offset i, nearest first. -/
def bestCandidate (rgba : List Nat) (mask : Nat → Bool) (i : Nat) : Nat × Nat :=
  (List.range' 1 (min i WIN_SIZE)).foldl (candStep rgba mask i) (0, 0)

/-- Modelled from the spec: bits saved by a match of length L at distance D:
L × SAVED_PIXEL_BITS − (LEN_PREFIX_COST + ⌈log2 L⌉ + DIST_PREFIX_COST +
⌈log2 D⌉). -/
def matchScore (L D : Nat) : Int :=
  (L : Int) * RGBA_SAVED_PIXEL_BITS -
    ((RGBA_LEN_PREFIX_COST : Int) + clog2 L + RGBA_DIST_PREFIX_COST + clog2 D)

/-- Modelled from the spec: a candidate (distance, length) is accepted when it
reaches the minimum match length and its bit-saving score is positive. -/
def acceptMatch (dl : Nat × Nat) : Bool :=
  decide (RGBA_MIN_MATCH ≤ dl.2 ∧ 0 < matchScore dl.2 dl.1)

/-- Modelled from the spec: the scan loop of LZMatchFinder::scanRGBA.  Matches
are emitted in scan order; after an accepted match the scan resumes past the
copied run, otherwise at the next pixel. -/
def scanFrom (rgba : List Nat) (mask : Nat → Bool) : Nat → Nat → List LZMatch
  | 0, _ => []
  | fuel + 1, i =>
    if rgba.length ≤ i then []
    else if acceptMatch (bestCandidate rgba mask i) then
      ⟨i, (bestCandidate rgba mask i).1, (bestCandidate rgba mask i).2⟩ ::
        scanFrom rgba mask fuel (i + (bestCandidate rgba mask i).2)
    else
      scanFrom rgba mask fuel (i + 1)

/-- Modelled from the spec: LZMatchFinder::scanRGBA (declared at
LZMatchFinder.hpp line 121, body not under src/): scan the packed RGBA plane
from the first pixel and collect the accepted matches in offset order. -/
def scanRGBA (rgba : List Nat) (mask : Nat → Bool) : List LZMatch :=
  scanFrom rgba mask rgba.length 0

end LZMatchFinder

/-! ## Round trip: the pixel-scan contract of write and read -/

/-- Modelled from the spec: the spatial prediction used by both sides
(Filters.hpp is outside the source tree): a safe border-clamped predictor
over the already-decoded neighborhood, here the left neighbor (−1, 0),
falling back to the pixel above (0, −1) in column 0 and to zero at the
origin. -/
def sfPred (l : List RGBAPixel) (W x y : Nat) : RGBAPixel :=
  if 0 < x then getPix l (y * W + x - 1)
  else if 0 < y then getPix l ((y - 1) * W + x)
  else zeroPix

/-- Modelled from the spec: the forward color filter applied to the byte RGB
residual, the inverse of the yuv2rgb member used by the decoder:
Y = G, U = R − G, V = B − G (mod 256). -/
def cfFwd (r g b : Nat) : Nat × Nat × Nat :=
  (g % 256, (r + 256 - g % 256) % 256, (b + 256 - g % 256) % 256)

/-- Symbols of the pixel scan: a literal (Y, U, V, inverted A) tuple or a
Y-channel LZ escape carrying (distance, length).  The static-Huffman binary
layer is an external collaborator per the spec, so the stream is modelled at
symbol level. -/
inductive Token where
  | lit (yv uv vv av : Nat)
  | lz (d l : Nat)
deriving DecidableEq

/-- Encoder-side verification of a proposed LZ match at pixel index i
(modelled from the spec: the finder only emits verified matches, see section
4.5 and the LZ invariants of section 3): positive distance inside the
already-written region, destination run inside the image, both runs unmasked,
and the copied-from pixels identical to the destination pixels. -/
def lzOk (img : List RGBAPixel) (mask : Nat → Bool) (i d l : Nat) : Prop :=
  1 ≤ d ∧ d ≤ i ∧ 1 ≤ l ∧ i + l ≤ img.length ∧
  ∀ k < l, mask (i + k) = false ∧ mask (i - d + k) = false ∧
    getPix img (i - d + k) = getPix img (i + k)

instance (img : List RGBAPixel) (mask : Nat → Bool) (i d l : Nat) :
    Decidable (lzOk img mask i d l) := by
  unfold lzOk
  exact inferInstance

/-- Literal token for pixel index i: apply the spatial prediction at
(x, y) = (i % W, i / W), take the RGB residual mod 256, color-filter it to
(Y, U, V), and store the alpha channel inverted (255 − A), per spec section
4.3. -/
def encodeLit (img : List RGBAPixel) (W i : Nat) : Token :=
  let p := getPix img i
  let pr := sfPred img W (i % W) (i / W)
  let yuv := cfFwd ((p.r + 256 - pr.r % 256) % 256) ((p.g + 256 - pr.g % 256) % 256)
    ((p.b + 256 - pr.b % 256) % 256)
  Token.lit yuv.1 yuv.2.1 yuv.2.2 (255 - p.a % 256)

/-- Modelled from the spec: the pixel scan of ImageRGBAWriter::write (its
body is not under src/) at symbol level, from pixel index i with recursion
fuel.  Masked pixels emit nothing; where the match list proposes a verified
match, a single LZ escape covers the next l pixels; otherwise one literal
token is emitted.  The three modes are disjoint and exhaustive per the spec's
invariants. -/
def encodeFrom (img : List RGBAPixel) (mask : Nat → Bool)
    (matchAt : Nat → Option (Nat × Nat)) (W : Nat) : Nat → Nat → List Token
  | 0, _ => []
  | fuel + 1, i =>
    if img.length ≤ i then []
    else if mask i then encodeFrom img mask matchAt W fuel (i + 1)
    else
      match matchAt i with
      | some (d, l) =>
        if lzOk img mask i d l then
          Token.lz d l :: encodeFrom img mask matchAt W fuel (i + l)
        else
          encodeLit img W i :: encodeFrom img mask matchAt W fuel (i + 1)
      | none => encodeLit img W i :: encodeFrom img mask matchAt W fuel (i + 1)

/-- Decoder pixel scan at symbol level.  The scan loop (readPixels's body is
not under src/) is modelled from the spec: at each index, consult the mask
first and emit the reconstructed dominant color without consuming a symbol;
otherwise consume a token with the per-pixel step of the in-tree
ImageRGBAReader::readSafe/readUnsafe: a literal is color-unfiltered, has the
spatial prediction added back mod 256, and its alpha re-inverted; on a
Y-channel LZ escape the branch body is an unfinished TODO (ImageRGBAReader.hpp
lines 139-141, 176-178), so the symbol is consumed and nothing further
happens — no pixels are copied and the output pixel for the position is left
unwritten (modelled as the zero pixel) as the scan moves on. -/
def decodeFrom (mask : Nat → Bool) (maskColor : RGBAPixel) (W n : Nat) :
    Nat → List Token → List RGBAPixel → List RGBAPixel
  | 0, _, acc => acc
  | fuel + 1, ts, acc =>
    if n ≤ acc.length then acc
    else if mask acc.length then
      decodeFrom mask maskColor W n fuel ts (acc ++ [maskColor])
    else
      match ts with
      | [] => acc
      | Token.lz _ _ :: rest =>
        decodeFrom mask maskColor W n fuel rest (acc ++ [zeroPix])
      | Token.lit yv uv vv av :: rest =>
        let pr := sfPred acc W (acc.length % W) (acc.length / W)
        let rgb := yuv2rgb (yv, uv, vv)
        decodeFrom mask maskColor W n fuel rest
          (acc ++ [⟨(rgb.1 + pr.r) % 256, (rgb.2.1 + pr.g) % 256,
            (rgb.2.2 + pr.b) % 256, 255 - av % 256⟩])

namespace ImageRGBAWriter

/-- Modelled from the spec: ImageRGBAWriter::write (declared at
ImageRGBAWriter.hpp line 194, body not under src/): emit the pixel scan of
the whole image.  The match list produced by designLZ is the `matchAt`
argument. -/
def write (img : List RGBAPixel) (mask : Nat → Bool)
    (matchAt : Nat → Option (Nat × Nat)) (W : Nat) : List Token :=
  encodeFrom img mask matchAt W img.length 0

end ImageRGBAWriter

namespace ImageRGBAReader

/-- ImageRGBAReader::read (declared at ImageRGBAReader.hpp line 218): decode
n pixels of the scan from the symbol stream.  The scan loop is modelled from
the spec (readPixels's body is not under src/); the per-pixel step, including
the do-nothing LZ-escape branch, follows the in-tree readSafe/readUnsafe. -/
def read (mask : Nat → Bool) (maskColor : RGBAPixel) (W n : Nat)
    (ts : List Token) : List RGBAPixel :=
  decodeFrom mask maskColor W n n ts []

end ImageRGBAReader

/-- Concrete 4×1 image of two repeated pixels, used to exercise the LZ path:
positions 2 and 3 repeat positions 0 and 1. -/
def imgStripes : List RGBAPixel :=
  [⟨1, 1, 1, 1⟩, ⟨2, 2, 2, 2⟩, ⟨1, 1, 1, 1⟩, ⟨2, 2, 2, 2⟩]

/-- Match list proposing one verified match for imgStripes: at offset 2, copy
2 pixels from distance 2 back. -/
def stripeMatches (i : Nat) : Option (Nat × Nat) :=
  if i = 2 then some (2, 2) else none

/-! ## Theorems -/

/-- Helper: the designChaos selection fold tracks a running minimum.  Starting
from an accumulator whose entropy field is the entropy of its level field, the
fold returns a pair that still satisfies that invariant, never increases the
entropy field, is at most every entropy seen, and whose level is either the
initial one or one of the visited levels. -/
theorem chaosSelectFold_spec (ent : Nat → Nat) (l : List Nat) (acc : Nat × Nat)
    (hacc : acc.1 = ent acc.2) :
    (l.foldl (MonoWriter.chaosSelectStep ent) acc).1 =
      ent (l.foldl (MonoWriter.chaosSelectStep ent) acc).2 ∧
    (l.foldl (MonoWriter.chaosSelectStep ent) acc).1 ≤ acc.1 ∧
    (∀ k ∈ l, (l.foldl (MonoWriter.chaosSelectStep ent) acc).1 ≤ ent k) ∧
    ((l.foldl (MonoWriter.chaosSelectStep ent) acc).2 = acc.2 ∨
      (l.foldl (MonoWriter.chaosSelectStep ent) acc).2 ∈ l) := by
  induction l generalizing acc with
  | nil => simp [hacc]
  | cons x xs ih =>
    simp only [List.foldl_cons]
    have hstep : (MonoWriter.chaosSelectStep ent acc x).1 =
        ent (MonoWriter.chaosSelectStep ent acc x).2 ∧
        (MonoWriter.chaosSelectStep ent acc x).1 ≤ acc.1 ∧
        (MonoWriter.chaosSelectStep ent acc x).1 ≤ ent x ∧
        ((MonoWriter.chaosSelectStep ent acc x).2 = acc.2 ∨
          (MonoWriter.chaosSelectStep ent acc x).2 = x) := by
      simp only [MonoWriter.chaosSelectStep]
      split_ifs with h
      · exact ⟨rfl, le_of_lt h, le_refl _, Or.inr rfl⟩
      · exact ⟨hacc, le_refl _, le_of_not_lt h, Or.inl rfl⟩
    obtain ⟨h1, h2, h3, h4⟩ := hstep
    obtain ⟨g1, g2, g3, g4⟩ := ih (MonoWriter.chaosSelectStep ent acc x) h1
    refine ⟨g1, le_trans g2 h2, ?_, ?_⟩
    · intro k hk
      rcases List.mem_cons.mp hk with rfl | hk'
      · exact le_trans g2 h3
      · exact g3 k hk'
    · rcases g4 with h | h
      · rcases h4 with h' | h'
        · exact Or.inl (h.trans h')
        · exact Or.inr (by simp [h, h'])
      · exact Or.inr (List.mem_cons_of_mem _ h)

/-- C5: evaluation of the tile-size loop of MonoWriter::process at a failing
input.  With min_bits = 3, max_bits = 5 and body entropies strictly increasing
in the bit count, the configuration left behind is that of B = 5 (the last B
tried, = max_bits), `best_bits` / `best_entropy` still hold their initial
values, although B = 3 has strictly smaller entropy: the loop never records
or retains the minimal-entropy B. -/
theorem process_keeps_last_bits :
    (MonoWriter.process 3 5 (fun bits => bits)).tile_bits = 5 ∧
    (MonoWriter.process 3 5 (fun bits => bits)).best_bits = 5 ∧
    (MonoWriter.process 3 5 (fun bits => bits)).best_entropy = 0x7fffffff ∧
    (fun bits => bits) 3 < (fun bits => bits) 5 := by
  decide

/-- C6 counterexample: the chaos-level loop never tries K = 8.  With total
entropies `ent k = k` for k ≤ 7 and `ent 8 = 0`, the minimum over [1..8] is at
K = 8, yet designChaos selects K = 1: the loop bound `chaos_levels <
MAX_CHAOS_LEVELS` stops at 7. -/
theorem designChaos_never_tries_eight :
    8 ∉ MonoWriter.triedChaosLevels ∧
    (MonoWriter.designChaosSelect (fun k => if k = 8 then 0 else k)).2 = 1 ∧
    (fun k => if k = 8 then 0 else k) 8 <
      (fun k => if k = 8 then 0 else k)
        ((MonoWriter.designChaosSelect (fun k => if k = 8 then 0 else k)).2) := by
  decide

/-- C6 (amended): the encoder tries every K in [1..7] (chaos_levels running
from 1 while < MAX_CHAOS_LEVELS = 8) and selects a K whose total encoded size
is minimal among those tried (total sizes are u32 values, bounded below
2^31); the chosen K is transmitted as K−1 in a 4-bit field, so every emitted
value fits in 4 bits. -/
theorem designChaos_picks_minimum (ent : Nat → Nat)
    (hbound : ∀ k ∈ MonoWriter.triedChaosLevels, ent k < 0x80000000) :
    (MonoWriter.designChaosSelect ent).2 ∈ MonoWriter.triedChaosLevels ∧
    (∀ k ∈ MonoWriter.triedChaosLevels,
      ent (MonoWriter.designChaosSelect ent).2 ≤ ent k) ∧
    (MonoWriter.designChaosSelect ent).2 - 1 < 2 ^ 4 := by
  have htried : MonoWriter.triedChaosLevels = 1 :: [2, 3, 4, 5, 6, 7] := by decide
  have hsel : MonoWriter.designChaosSelect ent =
      List.foldl (MonoWriter.chaosSelectStep ent)
        (MonoWriter.chaosSelectStep ent (0x7fffffff, 1) 1) [2, 3, 4, 5, 6, 7] := by
    rw [MonoWriter.designChaosSelect, htried, List.foldl_cons]
  have hacc1 : (MonoWriter.chaosSelectStep ent (0x7fffffff, 1) 1).1 =
      ent (MonoWriter.chaosSelectStep ent (0x7fffffff, 1) 1).2 ∧
      (MonoWriter.chaosSelectStep ent (0x7fffffff, 1) 1).2 = 1 := by
    have h1 : ent 1 < 0x80000000 := hbound 1 (by rw [htried]; exact List.mem_cons_self 1 _)
    simp only [MonoWriter.chaosSelectStep]
    split_ifs with h
    · exact ⟨rfl, rfl⟩
    · refine ⟨?_, rfl⟩
      have : ¬ ((0x7fffffff : Nat) > ent 1) := h
      show (0x7fffffff : Nat) = ent 1
      omega
  obtain ⟨g1, g2, g3, g4⟩ :=
    chaosSelectFold_spec ent [2, 3, 4, 5, 6, 7]
      (MonoWriter.chaosSelectStep ent (0x7fffffff, 1) 1) hacc1.1
  rw [hsel]
  have hmem : (List.foldl (MonoWriter.chaosSelectStep ent)
      (MonoWriter.chaosSelectStep ent (0x7fffffff, 1) 1) [2, 3, 4, 5, 6, 7]).2 ∈
      MonoWriter.triedChaosLevels := by
    rw [htried]
    rcases g4 with h | h
    · rw [h, hacc1.2]; exact List.mem_cons_self 1 _
    · exact List.mem_cons_of_mem _ h
  have hseven : ∀ k ∈ MonoWriter.triedChaosLevels, k ≤ 7 := by decide
  refine ⟨hmem, ?_, ?_⟩
  · intro k hk
    rw [htried] at hk
    rcases List.mem_cons.mp hk with rfl | hk'
    · calc ent (List.foldl (MonoWriter.chaosSelectStep ent)
            (MonoWriter.chaosSelectStep ent (0x7fffffff, 1) 1) [2, 3, 4, 5, 6, 7]).2
          = (List.foldl (MonoWriter.chaosSelectStep ent)
            (MonoWriter.chaosSelectStep ent (0x7fffffff, 1) 1) [2, 3, 4, 5, 6, 7]).1 := g1.symm
        _ ≤ (MonoWriter.chaosSelectStep ent (0x7fffffff, 1) 1).1 := g2
        _ = ent (MonoWriter.chaosSelectStep ent (0x7fffffff, 1) 1).2 := hacc1.1
        _ = ent 1 := by rw [hacc1.2]
    · calc ent (List.foldl (MonoWriter.chaosSelectStep ent)
            (MonoWriter.chaosSelectStep ent (0x7fffffff, 1) 1) [2, 3, 4, 5, 6, 7]).2
          = (List.foldl (MonoWriter.chaosSelectStep ent)
            (MonoWriter.chaosSelectStep ent (0x7fffffff, 1) 1) [2, 3, 4, 5, 6, 7]).1 := g1.symm
        _ ≤ ent k := g3 k hk'
  · have := hseven _ hmem
    omega

/-- Witness for designChaos_picks_minimum at the concrete entropy profile
ent k = k + 2. -/
theorem designChaos_picks_minimum_witness :
    (MonoWriter.designChaosSelect (fun k => k + 2)).2 ∈ MonoWriter.triedChaosLevels ∧
    (∀ k ∈ MonoWriter.triedChaosLevels,
      (fun k => k + 2) (MonoWriter.designChaosSelect (fun k => k + 2)).2 ≤
        (fun k => k + 2) k) ∧
    (MonoWriter.designChaosSelect (fun k => k + 2)).2 - 1 < 2 ^ 4 :=
  designChaos_picks_minimum (fun k => k + 2) (by decide)

/-- C7 counterexample: when the child engine's entropy exactly equals the
row-filter entropy (a tie, so the child does not strictly beat the row-filter
scheme), recurseCompress still retains the child. -/
theorem recurseCompress_keeps_child_on_tie :
    MonoWriter.recurseCompress 4 4 10 10 = true ∧ ¬ (10 < 10) := by
  decide

/-- C7 (amended): when tiles_count ≥ RECURSIVE_THRESH, recurseCompress builds
a child MonoWriter over the filter-id plane and retains it iff its encoded
entropy does not exceed the row-filter scheme's entropy (it is discarded
exactly when strictly worse). -/
theorem recurseCompress_keeps_child_iff_not_worse
    (RECURSIVE_THRESH tiles_count row_filter_entropy recurse_entropy : Nat)
    (h : RECURSIVE_THRESH ≤ tiles_count) :
    (MonoWriter.recurseCompress RECURSIVE_THRESH tiles_count
        row_filter_entropy recurse_entropy = true) ↔
      recurse_entropy ≤ row_filter_entropy := by
  simp only [MonoWriter.recurseCompress]
  rw [if_neg (by omega)]
  split_ifs with h2
  · simp only [Bool.false_eq_true, false_iff]
    omega
  · simp only [true_iff]
    omega

/-- Witness for recurseCompress_keeps_child_iff_not_worse at concrete values:
threshold 4, 5 tiles, row-filter entropy 10, child entropy 9. -/
theorem recurseCompress_keeps_child_iff_not_worse_witness :
    (MonoWriter.recurseCompress 4 5 10 9 = true) ↔ 9 ≤ 10 :=
  recurseCompress_keeps_child_iff_not_worse 4 5 10 9 (by decide)

/-- C8 counterexample: on the stream [0, 1] for a not-yet-seen tile, the
decoder's readFilter assigns the CF-id from the first value and the SF-id from
the second, while the claim's order (SF-map read first) would give the
opposite assignment; the two disagree. -/
theorem readFilter_consumes_cf_first :
    ImageRGBAReader.readFilter ⟨none, none⟩ [0, 1] = (⟨some 0, some 1⟩, []) ∧
    ImageRGBAReader.readFilterSpecOrder ⟨none, none⟩ [0, 1] = (⟨some 1, some 0⟩, []) ∧
    ImageRGBAReader.readFilter ⟨none, none⟩ [0, 1] ≠
      ImageRGBAReader.readFilterSpecOrder ⟨none, none⟩ [0, 1] := by
  decide

/-- C8 (amended): at the first decoded pixel of each not-yet-seen tile the
tile's CF-id is transmitted before its SF-id: the decoder consumes the CF-map
sub-engine read first and the SF-map read second. -/
theorem readFilter_order_cf_then_sf (sf0 : Option Nat) (reader : List Nat) :
    ImageRGBAReader.readFilter ⟨none, sf0⟩ reader =
      (⟨some (reader.headD 0), some (reader.tail.headD 0)⟩, reader.tail.tail) := by
  simp [ImageRGBAReader.readFilter]

/-- C2: evaluation of the chaos pass at a failing input.  One row of three
elements with residuals [0, 8, 0], no masking, no sympal tiles, K = 8.  The
source computes every bin from the fixed workspace cells last[-1], last[0]
(it stores each residual at last[x] but never advances the window), so at
x = 2 it uses score(0) + score(residual at column 0) and emits bin 0; the
claim's sliding window uses score(residual at (1,0)) + score(previous-row
column 2) and emits bin 7. -/
theorem designChaos_bin_ignores_left_neighbor :
    MonoWriter.designChaosBins 8 1 3 1 (fun _ _ => false) (fun _ _ => 0) [0, 8, 0] =
      [some 0, some 0, some 0] ∧
    MonoWriter.specChaosBins 8 1 3 1 (fun _ _ => false) (fun _ _ => 0) [0, 8, 0] =
      [some 0, some 0, some 7] ∧
    MonoWriter.designChaosBins 8 1 3 1 (fun _ _ => false) (fun _ _ => 0) [0, 8, 0] ≠
      MonoWriter.specChaosBins 8 1 3 1 (fun _ _ => false) (fun _ _ => 0) [0, 8, 0] := by
  decide

/-- Helper: when passes = 0, a tile iteration of the designTiles body cannot
take the early return (it is guarded by passes > 0) and leaves passes at 0. -/
theorem designTilesTile_passes_zero (nfc : Nat) (selectBest : Nat → Nat)
    (s : MonoWriter.DesignTilesState) (h : s.passes = 0) :
    ∃ s2, MonoWriter.designTilesTile nfc selectBest s = some s2 ∧ s2.passes = 0 := by
  by_cases h1 : nfc ≤ s.tiles.getD s.p 0
  · refine ⟨{ s with p := s.p + 1 }, ?_, h⟩
    simp only [MonoWriter.designTilesTile]
    rw [if_pos h1]
  · refine ⟨{ s with tiles := s.tiles.set s.p (selectBest s.p), p := s.p + 1 }, ?_, h⟩
    simp only [MonoWriter.designTilesTile]
    rw [if_neg h1, if_neg (show ¬ 0 < s.passes by omega)]

/-- Helper: a whole designTiles pass over any tile list keeps passes at 0 and
never takes the early return. -/
theorem designTilesFold_passes_zero (nfc : Nat) (selectBest : Nat → Nat)
    (l : List Nat) (s : MonoWriter.DesignTilesState) (h : s.passes = 0) :
    ∃ s2, l.foldlM (fun st _ => MonoWriter.designTilesTile nfc selectBest st) s
        = some s2 ∧ s2.passes = 0 := by
  induction l generalizing s with
  | nil => exact ⟨s, rfl, h⟩
  | cons a l ih =>
    obtain ⟨s1, hs1, hp1⟩ := designTilesTile_passes_zero nfc selectBest s h
    obtain ⟨s2, hs2, hp2⟩ := ih s1 hp1
    refine ⟨s2, ?_, hp2⟩
    rw [List.foldlM_cons, hs1]
    simpa using hs2

/-- Helper: from any state with passes = 0 the designTiles while loop consumes
every iteration budget without terminating: the guard passes < MAX_PASSES
stays true forever and the early return is unreachable. -/
theorem designTilesLoop_stuck (tiles_count nfc : Nat) (selectBest : Nat → Nat)
    (fuel : Nat) :
    ∀ s : MonoWriter.DesignTilesState, s.passes = 0 →
      MonoWriter.designTilesLoop tiles_count nfc selectBest fuel s = none := by
  induction fuel with
  | zero => intro s _; rfl
  | succ fuel ih =>
    intro s h
    unfold MonoWriter.designTilesLoop
    rw [if_pos (by rw [h]; decide)]
    obtain ⟨s2, hs2, hp2⟩ :=
      designTilesFold_passes_zero nfc selectBest (List.range tiles_count) s h
    unfold MonoWriter.designTilesPass
    rw [hs2]
    exact ih s2 hp2

/-- C4: MonoWriter::designTiles terminates on no input.  The loop body never
increments `passes`, so the guard `passes < MAX_PASSES` never goes false and
the revisit-budget early return (guarded by `passes > 0`) is unreachable: for
every tile plane, every revisit budget and every iteration budget `fuel`, the
while loop is still running after `fuel` iterations. -/
theorem designTiles_does_not_terminate (tiles_count nfc : Nat)
    (selectBest : Nat → Nat) (revisit : Int) (tiles : List Nat) (fuel : Nat) :
    MonoWriter.designTiles tiles_count nfc selectBest revisit tiles fuel = none :=
  designTilesLoop_stuck tiles_count nfc selectBest fuel ⟨0, revisit, tiles, 0⟩ rfl

/-- Helper: the match extension never exceeds MAX_MATCH when started at or
below it (the step guard requires k < MAX_MATCH). -/
theorem matchLenAux_le_max (rgba : List Nat) (mask : Nat → Bool) (j i : Nat) :
    ∀ fuel k, k ≤ LZMatchFinder.MAX_MATCH →
      LZMatchFinder.matchLenAux rgba mask j i fuel k ≤ LZMatchFinder.MAX_MATCH := by
  intro fuel
  induction fuel with
  | zero => intro k hk; exact hk
  | succ fuel ih =>
    intro k hk
    unfold LZMatchFinder.matchLenAux
    split_ifs with h
    · exact ih (k + 1) h.1
    · exact hk

/-- Helper: every pixel matched by the extension has an unmasked source. -/
theorem matchLenAux_src_unmasked (rgba : List Nat) (mask : Nat → Bool) (j i : Nat) :
    ∀ fuel k m, k ≤ m → m < LZMatchFinder.matchLenAux rgba mask j i fuel k →
      mask (j + m) = false := by
  intro fuel
  induction fuel with
  | zero =>
    intro k m hkm hm
    simp only [LZMatchFinder.matchLenAux] at hm
    omega
  | succ fuel ih =>
    intro k m hkm hm
    unfold LZMatchFinder.matchLenAux at hm
    split_ifs at hm with h
    · rcases Nat.eq_or_lt_of_le hkm with rfl | hlt
      · exact h.2.2.2.1
      · exact ih (k + 1) m hlt hm
    · omega

/-- Helper: the candidate fold either returns its accumulator or a pair whose
distance was walked and whose length is the match length at that distance. -/
theorem candFold_inv (rgba : List Nat) (mask : Nat → Bool) (i : Nat)
    (l : List Nat) (acc : Nat × Nat) :
    l.foldl (LZMatchFinder.candStep rgba mask i) acc = acc ∨
    ((l.foldl (LZMatchFinder.candStep rgba mask i) acc).1 ∈ l ∧
      (l.foldl (LZMatchFinder.candStep rgba mask i) acc).2 =
        LZMatchFinder.matchLen rgba mask
          (i - (l.foldl (LZMatchFinder.candStep rgba mask i) acc).1) i) := by
  induction l generalizing acc with
  | nil => exact Or.inl rfl
  | cons x xs ih =>
    rw [List.foldl_cons]
    rcases ih (LZMatchFinder.candStep rgba mask i acc x) with h | h
    · rw [h]
      unfold LZMatchFinder.candStep
      split_ifs with hx
      · exact Or.inr ⟨List.mem_cons_self _ _, rfl⟩
      · exact Or.inl rfl
    · exact Or.inr ⟨List.mem_cons_of_mem _ h.1, h.2⟩

/-- Helper: soundness of every match emitted by the scan loop from any start
offset. -/
theorem scanFrom_sound (rgba : List Nat) (mask : Nat → Bool) :
    ∀ fuel i m, m ∈ LZMatchFinder.scanFrom rgba mask fuel i →
      1 ≤ m.distance ∧ LZMatchFinder.RGBA_MIN_MATCH ≤ m.length ∧
      m.length ≤ LZMatchFinder.MAX_MATCH ∧ m.distance ≤ m.offset ∧
      m.distance ≤ LZMatchFinder.WIN_SIZE ∧
      ∀ k < m.length, mask (m.offset - m.distance + k) = false := by
  intro fuel
  induction fuel with
  | zero =>
    intro i m hm
    simp only [LZMatchFinder.scanFrom, List.not_mem_nil] at hm
  | succ fuel ih =>
    intro i m hm
    unfold LZMatchFinder.scanFrom at hm
    split_ifs at hm with h1 h2
    · simp only [List.not_mem_nil] at hm
    · rcases List.mem_cons.mp hm with rfl | hm2
      · unfold LZMatchFinder.acceptMatch at h2
        have hacc := of_decide_eq_true h2
        have hbc := candFold_inv rgba mask i
          (List.range' 1 (min i LZMatchFinder.WIN_SIZE)) (0, 0)
        rw [show List.foldl (LZMatchFinder.candStep rgba mask i) (0, 0)
            (List.range' 1 (min i LZMatchFinder.WIN_SIZE)) =
            LZMatchFinder.bestCandidate rgba mask i from rfl] at hbc
        rcases hbc with hz | hin
        · rw [hz] at hacc
          exact absurd hacc.1 (by decide)
        · have hd := List.mem_range'_1.mp hin.1
          refine ⟨?_, hacc.1, ?_, ?_, ?_, ?_⟩
          · exact hd.1
          · show (LZMatchFinder.bestCandidate rgba mask i).2 ≤ _
            rw [hin.2]
            exact matchLenAux_le_max rgba mask _ i LZMatchFinder.MAX_MATCH 0
              (Nat.zero_le _)
          · show (LZMatchFinder.bestCandidate rgba mask i).1 ≤ i
            omega
          · show (LZMatchFinder.bestCandidate rgba mask i).1 ≤
              LZMatchFinder.WIN_SIZE
            omega
          · intro k hk
            show mask (i - (LZMatchFinder.bestCandidate rgba mask i).1 + k) = false
            have hk2 : k < (LZMatchFinder.bestCandidate rgba mask i).2 := hk
            rw [hin.2] at hk2
            exact matchLenAux_src_unmasked rgba mask _ i LZMatchFinder.MAX_MATCH
              0 k (Nat.zero_le _) hk2
      · exact ih _ m hm2
    · exact ih _ m hm

/-- C9: LZ soundness of the RGBA match finder.  Every emitted match satisfies
D ≥ 1, L ≥ MIN_MATCH = 2, L ≤ MAX_MATCH = 4096, offset − D ≥ 0 (D ≤ offset),
D within the 2^20-pixel sliding window, and the copied-from region contains
no masked pixel. -/
theorem scanRGBA_sound (rgba : List Nat) (mask : Nat → Bool)
    (m : LZMatchFinder.LZMatch) (hm : m ∈ LZMatchFinder.scanRGBA rgba mask) :
    1 ≤ m.distance ∧ LZMatchFinder.RGBA_MIN_MATCH ≤ m.length ∧
    m.length ≤ LZMatchFinder.MAX_MATCH ∧ m.distance ≤ m.offset ∧
    m.distance ≤ LZMatchFinder.WIN_SIZE ∧
    ∀ k < m.length, mask (m.offset - m.distance + k) = false :=
  scanFrom_sound rgba mask rgba.length 0 m hm

/-- Witness for scanRGBA_sound: on the 4-pixel plane [7,7,7,7] with nothing
masked the finder emits the match (offset 1, distance 1, length 3), and the
soundness conjunction holds for it. -/
theorem scanRGBA_sound_witness :
    (LZMatchFinder.LZMatch.mk 1 1 3 ∈
      LZMatchFinder.scanRGBA [7, 7, 7, 7] (fun _ => false)) ∧
    (1 ≤ (LZMatchFinder.LZMatch.mk 1 1 3).distance ∧
      LZMatchFinder.RGBA_MIN_MATCH ≤ (LZMatchFinder.LZMatch.mk 1 1 3).length ∧
      (LZMatchFinder.LZMatch.mk 1 1 3).length ≤ LZMatchFinder.MAX_MATCH ∧
      (LZMatchFinder.LZMatch.mk 1 1 3).distance ≤
        (LZMatchFinder.LZMatch.mk 1 1 3).offset ∧
      (LZMatchFinder.LZMatch.mk 1 1 3).distance ≤ LZMatchFinder.WIN_SIZE ∧
      ∀ k < (LZMatchFinder.LZMatch.mk 1 1 3).length,
        (fun _ => false : Nat → Bool)
          ((LZMatchFinder.LZMatch.mk 1 1 3).offset -
            (LZMatchFinder.LZMatch.mk 1 1 3).distance + k) = false) :=
  ⟨by decide,
    scanRGBA_sound [7, 7, 7, 7] (fun _ => false) (LZMatchFinder.LZMatch.mk 1 1 3)
      (by decide)⟩

/-- C3: evaluation of the decoder at a Y-channel LZ escape.  On the stream
[300, 1, 1] (escape code 300, then a length and a distance) readSafe consumes
only the escape symbol and changes nothing else — the branch body is an
unfinished TODO: no length or distance is read, no pixels are copied, the
chaos state is untouched.  The claim's behavior (readLZMatchSpec, modelled
from the spec) produces a different state: it consumes the length and
distance and copies a pixel. -/
theorem readSafe_lz_escape_reads_nothing :
    ImageRGBAReader.readSafe (fun _ _ _ _ => zeroPix) (fun _ v => v) 2 4 1 0
        sampleReaderState = { sampleReaderState with stream := [1, 1] } ∧
    ImageRGBAReader.readLZMatchSpec 4 1 0 sampleReaderState ≠
      { sampleReaderState with stream := [1, 1] } := by
  decide

/-- C10: for every pixel position and decoder state at which the safe and
unsafe spatial-filter variants agree (on the current plane at this position)
and the safe and unsafe alpha reads agree (at this column), readSafe and
readUnsafe decode the identical RGBA pixel and leave the identical chaos
state, filter state and stream position. -/
theorem readSafe_eq_readUnsafe
    (sfS sfU : List RGBAPixel → Nat → Nat → Nat → RGBAPixel)
    (aR aRU : Nat → Nat → Nat) (tile_bits_x xsize x y : Nat)
    (st : RGBAReaderState)
    (hsf : sfS st.out x y xsize = sfU st.out x y xsize)
    (ha : ∀ v, aR x v = aRU x v) :
    ImageRGBAReader.readSafe sfS aR tile_bits_x xsize x y st =
      ImageRGBAReader.readUnsafe sfU aRU tile_bits_x xsize x y st := by
  simp only [ImageRGBAReader.readSafe, ImageRGBAReader.readUnsafe, hsf, ha]

/-- Witness for readSafe_eq_readUnsafe with a concrete filter pair, alpha
read and decoder state. -/
theorem readSafe_eq_readUnsafe_witness :
    ImageRGBAReader.readSafe (fun _ _ _ _ => RGBAPixel.mk 1 2 3 4) (fun _ v => v)
        2 4 1 0 { sampleReaderState with stream := [9, 1, 1] } =
      ImageRGBAReader.readUnsafe (fun _ _ _ _ => RGBAPixel.mk 1 2 3 4) (fun _ v => v)
        2 4 1 0 { sampleReaderState with stream := [9, 1, 1] } :=
  readSafe_eq_readUnsafe (fun _ _ _ _ => RGBAPixel.mk 1 2 3 4)
    (fun _ _ _ _ => RGBAPixel.mk 1 2 3 4) (fun _ v => v) (fun _ v => v)
    2 4 1 0 { sampleReaderState with stream := [9, 1, 1] } rfl (fun _ => rfl)

/-- Helper: reading inside a prefix equals reading in the full plane. -/
theorem getPix_take (l : List RGBAPixel) (i idx : Nat) (h : idx < i) :
    getPix (l.take i) idx = getPix l idx := by
  simp [getPix, List.getD, List.getElem?_take, h]

/-- Helper: extending a decoded prefix of the image by the pixel at its end
gives the next prefix. -/
theorem take_succ_getPix (l : List RGBAPixel) (i : Nat) (h : i < l.length) :
    l.take i ++ [getPix l i] = l.take (i + 1) := by
  rw [List.take_succ]
  congr 1
  simp [getPix, List.getD, List.getElem?_eq_getElem h]

/-- Helper: any pixel read from a valid plane is valid. -/
theorem getPix_valid (l : List RGBAPixel) (i : Nat) (h : ∀ p ∈ l, p.valid) :
    (getPix l i).valid := by
  by_cases hl : i < l.length
  · have : getPix l i = l[i] := by
      simp [getPix, List.getD, List.getElem?_eq_getElem hl]
    rw [this]
    exact h _ (l.getElem_mem hl)
  · have : getPix l i = zeroPix := by
      simp [getPix, List.getD, List.getElem?_eq_none (by omega : l.length ≤ i)]
    rw [this]
    decide

/-- Helper: the spatial prediction is causal: at pixel i = y·W + x with
x < W it reads only indices below i, so predicting from the decoded prefix
equals predicting from the full image. -/
theorem sfPred_take (img : List RGBAPixel) (W x y i : Nat) (_hW : 0 < W)
    (hi : i = y * W + x) (hx : x < W) :
    sfPred (img.take i) W x y = sfPred img W x y := by
  unfold sfPred
  split_ifs with h1 h2
  · exact getPix_take img i (y * W + x - 1) (by omega)
  · have hy : y - 1 + 1 = y := by omega
    have hmul : (y - 1) * W + W = y * W := by
      calc (y - 1) * W + W = (y - 1 + 1) * W := by ring
        _ = y * W := by rw [hy]
    exact getPix_take img i ((y - 1) * W + x) (by omega)
  · rfl

/-- Helper: the spatial prediction over a valid plane is valid. -/
theorem sfPred_valid (l : List RGBAPixel) (W x y : Nat) (h : ∀ p ∈ l, p.valid) :
    (sfPred l W x y).valid := by
  unfold sfPred
  split_ifs with h1 h2
  · exact getPix_valid l _ h
  · exact getPix_valid l _ h
  · decide

/-- Helper: the literal pixel transform round-trips: color-unfiltering the
encoder's (Y, U, V), adding the prediction back mod 256 and re-inverting the
alpha byte reconstructs the pixel, for byte-valued pixel and prediction. -/
theorem lit_roundtrip (p pr : RGBAPixel) (hp : p.valid) (hpr : pr.valid) :
    (⟨((yuv2rgb (cfFwd ((p.r + 256 - pr.r % 256) % 256)
          ((p.g + 256 - pr.g % 256) % 256) ((p.b + 256 - pr.b % 256) % 256))).1
        + pr.r) % 256,
      ((yuv2rgb (cfFwd ((p.r + 256 - pr.r % 256) % 256)
          ((p.g + 256 - pr.g % 256) % 256) ((p.b + 256 - pr.b % 256) % 256))).2.1
        + pr.g) % 256,
      ((yuv2rgb (cfFwd ((p.r + 256 - pr.r % 256) % 256)
          ((p.g + 256 - pr.g % 256) % 256) ((p.b + 256 - pr.b % 256) % 256))).2.2
        + pr.b) % 256,
      255 - (255 - p.a % 256) % 256⟩ : RGBAPixel) = p := by
  obtain ⟨p1, p2, p3, p4⟩ := p
  obtain ⟨q1, q2, q3, q4⟩ := pr
  obtain ⟨hp1, hp2, hp3, hp4⟩ := hp
  obtain ⟨hq1, hq2, hq3, hq4⟩ := hpr
  simp only [cfFwd, yuv2rgb, RGBAPixel.mk.injEq] at *
  refine ⟨by omega, by omega, by omega, by omega⟩

/-- Helper: main round-trip induction for encodes that propose no LZ match.
From any pixel index i, decoding the tokens the encoder emits from i onto the
already-decoded prefix of length i reconstructs the whole image. -/
theorem roundtrip_aux (img : List RGBAPixel) (mask : Nat → Bool)
    (maskColor : RGBAPixel) (matchAt : Nat → Option (Nat × Nat)) (W : Nat)
    (hW : 0 < W) (hvalid : ∀ p ∈ img, p.valid)
    (hmask : ∀ i, i < img.length → mask i = true → getPix img i = maskColor)
    (hnolz : ∀ j, matchAt j = none) :
    ∀ fuel i, i ≤ img.length → img.length - i ≤ fuel →
      decodeFrom mask maskColor W img.length fuel
        (encodeFrom img mask matchAt W fuel i) (img.take i) = img := by
  intro fuel
  induction fuel with
  | zero =>
    intro i hi hf
    have hieq : i = img.length := by omega
    rw [hieq, List.take_length]
    rfl
  | succ fuel ih =>
    intro i hi hf
    have hlen : (img.take i).length = i := by rw [List.length_take]; omega
    by_cases hend : img.length ≤ i
    · have hieq : i = img.length := by omega
      have henc : encodeFrom img mask matchAt W (fuel + 1) i = [] := by
        simp only [encodeFrom, if_pos hend]
      rw [henc, hieq, List.take_length]
      simp only [decodeFrom, if_pos (le_refl img.length)]
    · have hilt : i < img.length := by omega
      by_cases hm : mask i
      · have henc : encodeFrom img mask matchAt W (fuel + 1) i =
            encodeFrom img mask matchAt W fuel (i + 1) := by
          simp only [encodeFrom, if_neg hend, if_pos hm]
        have hcolor : maskColor = getPix img i := (hmask i hilt hm).symm
        have hdec : ∀ ts, decodeFrom mask maskColor W img.length (fuel + 1) ts
            (img.take i) = decodeFrom mask maskColor W img.length fuel ts
            (img.take i ++ [maskColor]) := by
          intro ts
          simp only [decodeFrom, hlen, if_neg hend, if_pos hm]
        have hacc : img.take i ++ [maskColor] = img.take (i + 1) := by
          rw [hcolor]
          exact take_succ_getPix img i hilt
        rw [henc, hdec, hacc]
        exact ih (i + 1) (by omega) (by omega)
      · have hstep_lit : ∀ rest,
            decodeFrom mask maskColor W img.length (fuel + 1)
              (encodeLit img W i :: rest) (img.take i) =
            decodeFrom mask maskColor W img.length fuel rest (img.take (i + 1)) := by
          intro rest
          have hx : i % W < W := Nat.mod_lt _ hW
          have hi2 : i = i / W * W + i % W := by
            rw [Nat.mul_comm]
            exact (Nat.div_add_mod i W).symm
          have hpred : sfPred (img.take i) W (i % W) (i / W) =
              sfPred img W (i % W) (i / W) :=
            sfPred_take img W (i % W) (i / W) i hW hi2 hx
          have hpx := lit_roundtrip (getPix img i) (sfPred img W (i % W) (i / W))
            (getPix_valid img i hvalid) (sfPred_valid img W (i % W) (i / W) hvalid)
          simp only [encodeLit, decodeFrom, hlen, if_neg hend, if_neg hm]
          rw [hpred, hpx, take_succ_getPix img i hilt]
        have henc : encodeFrom img mask matchAt W (fuel + 1) i =
            encodeLit img W i :: encodeFrom img mask matchAt W fuel (i + 1) := by
          simp only [encodeFrom, if_neg hend, if_neg hm, hnolz i]
        rw [henc, hstep_lit]
        exact ih (i + 1) (by omega) (by omega)

/-- C1 counterexample: the round trip fails as soon as the encoder emits an
LZ escape.  For the 4×1 image imgStripes with the verified match list
stripeMatches (no masked pixels, byte pixels, valid dimensions) the encoder
emits the escape Token.lz 2 2, and the decoder — whose escape branch is the
in-tree do-nothing TODO of readSafe/readUnsafe — does not reconstruct the
image. -/
theorem rgba_roundtrip_fails_on_lz_escape :
    (Token.lz 2 2 ∈
      ImageRGBAWriter.write imgStripes (fun _ => false) stripeMatches 4) ∧
    ImageRGBAReader.read (fun _ => false) zeroPix 4 4
      (ImageRGBAWriter.write imgStripes (fun _ => false) stripeMatches 4) ≠
      imgStripes := by
  decide

/-- C1 (amended): round trip without LZ escapes.  For every RGBA image of
valid dimensions (W·H pixels, W positive) whose pixels are bytes, with a
mask whose set pixels carry the dominant color, and an LZ match list that
proposes no match (the LZ subsystem disabled or finding nothing profitable),
decoding the symbol stream produced by the encoder's pixel scan yields an
image pixel-identical to the input. -/
theorem rgba_roundtrip_no_lz (img : List RGBAPixel) (mask : Nat → Bool)
    (maskColor : RGBAPixel) (matchAt : Nat → Option (Nat × Nat)) (W H : Nat)
    (hW : 0 < W) (hdim : img.length = W * H)
    (hvalid : ∀ p ∈ img, p.valid)
    (hmask : ∀ i, i < img.length → mask i = true → getPix img i = maskColor)
    (hnolz : ∀ j, matchAt j = none) :
    ImageRGBAReader.read mask maskColor W img.length
      (ImageRGBAWriter.write img mask matchAt W) = img := by
  have := roundtrip_aux img mask maskColor matchAt W hW hvalid hmask hnolz
    img.length 0 (Nat.zero_le _) (by omega)
  simpa [ImageRGBAReader.read, ImageRGBAWriter.write] using this

/-- Witness for rgba_roundtrip_no_lz: a 2×2 image with distinct byte pixels,
no masked pixels, no proposed matches. -/
theorem rgba_roundtrip_no_lz_witness :
    ImageRGBAReader.read (fun _ => false) zeroPix 2
      ([RGBAPixel.mk 1 2 3 4, RGBAPixel.mk 5 6 7 8, RGBAPixel.mk 9 10 11 12,
        RGBAPixel.mk 13 14 15 16] : List RGBAPixel).length
      (ImageRGBAWriter.write
        [RGBAPixel.mk 1 2 3 4, RGBAPixel.mk 5 6 7 8, RGBAPixel.mk 9 10 11 12,
          RGBAPixel.mk 13 14 15 16] (fun _ => false) (fun _ => none) 2) =
      [RGBAPixel.mk 1 2 3 4, RGBAPixel.mk 5 6 7 8, RGBAPixel.mk 9 10 11 12,
        RGBAPixel.mk 13 14 15 16] :=
  rgba_roundtrip_no_lz
    [RGBAPixel.mk 1 2 3 4, RGBAPixel.mk 5 6 7 8, RGBAPixel.mk 9 10 11 12,
      RGBAPixel.mk 13 14 15 16]
    (fun _ => false) zeroPix (fun _ => none) 2 2 (by decide) (by decide)
    (by decide) (fun _ _ hm => Bool.noConfusion hm) (fun _ => rfl)

end GCIF
